import Mathlib

set_option maxRecDepth 4000

/- Shallow embedding of the streaming-decode and status-connection layer of the
epm-data-forge frontend.

Sources embedded:
  * src/context/ModelContext.tsx, `generatePreview` — the streaming frame
    decoder (newline-delimited JSON segments with a carried tail) driving the
    preview session, its progress counters and its error handling;
  * src/App.tsx, `handleModelConfirm` — the second, per-chunk decoder (no
    carried tail, per-segment try/catch around JSON.parse);
  * src/stores/statusStore.ts — the zustand status-channel store with its
    WebSocket reconnect policy, modelled as an explicit event-driven world
    (store state, created sockets, scheduled timers).

Byte streams are modelled at the level of decoded text (lists of characters),
which matches `TextDecoder.decode(value, \x7b stream: true \x7d)`: a chunk cut
inside a multi-byte UTF-8 character is reassembled by the TextDecoder before
this layer ever sees it.  `JSON.parse` (a host builtin) is modelled by a
recursive-descent parser of the JSON grammar below; numbers are kept as their
raw lexemes (no claim compares numeric values across distinct lexemes), and a
thrown parse error is modelled as `none` / `Except.error ()`. -/

/-- JSON values as produced by the modelled `JSON.parse`.  Number literals are
kept as raw lexemes. -/
inductive Json where
  | null : Json
  | bool : Bool → Json
  | num : String → Json
  | str : String → Json
  | arr : List Json → Json
  | obj : List (String × Json) → Json
deriving Repr

/-- Whitespace accepted by the JSON grammar (space, tab, line feed, carriage
return); also used for the `trim` emptiness test on candidate segments. -/
def isWsChar (c : Char) : Bool :=
  c = ' ' || c = '\t' || c = '\n' || c = '\r'

def dropWs : List Char → List Char
  | [] => []
  | c :: r => if isWsChar c then dropWs r else c :: r

/-- Model of JavaScript `String.prototype.trim` (restricted to the whitespace
characters that can occur in this codebase's streams). -/
def jsTrim (l : List Char) : List Char :=
  (dropWs ((dropWs l).reverse)).reverse

def parseLit : List Char → List Char → Option (List Char)
  | [], rest => some rest
  | _ :: _, [] => none
  | c :: cs, d :: ds => if c = d then parseLit cs ds else none

def isDigitCh (c : Char) : Bool := '0' ≤ c && c ≤ '9'

def lexDigits : List Char → List Char × List Char
  | [] => ([], [])
  | c :: r =>
    if isDigitCh c then
      let p := lexDigits r
      (c :: p.1, p.2)
    else ([], c :: r)

/-- Integer part of a JSON number: `0`, or a nonzero digit followed by digits. -/
def lexInt : List Char → Option (List Char × List Char)
  | [] => none
  | '0' :: r => some (['0'], r)
  | c :: r =>
    if isDigitCh c then
      let p := lexDigits r
      some (c :: p.1, p.2)
    else none

def lexFrac : List Char → Option (List Char × List Char)
  | '.' :: r =>
    match lexDigits r with
    | ([], _) => none
    | (d, rest) => some ('.' :: d, rest)
  | l => some ([], l)

def lexExp : List Char → Option (List Char × List Char)
  | [] => some ([], [])
  | c :: r =>
    if c = 'e' || c = 'E' then
      match r with
      | s :: r2 =>
        if s = '+' || s = '-' then
          match lexDigits r2 with
          | ([], _) => none
          | (d, rest) => some (c :: s :: d, rest)
        else
          match lexDigits r with
          | ([], _) => none
          | (d, rest) => some (c :: d, rest)
      | [] => none
    else some ([], c :: r)

def lexNumber (l : List Char) : Option (List Char × List Char) :=
  match l with
  | '-' :: r =>
    match lexInt r with
    | none => none
    | some (i, l2) =>
      match lexFrac l2 with
      | none => none
      | some (f, l3) =>
        match lexExp l3 with
        | none => none
        | some (e, l4) => some ('-' :: (i ++ f ++ e), l4)
  | _ =>
    match lexInt l with
    | none => none
    | some (i, l2) =>
      match lexFrac l2 with
      | none => none
      | some (f, l3) =>
        match lexExp l3 with
        | none => none
        | some (e, l4) => some (i ++ f ++ e, l4)

def hexVal (c : Char) : Option Nat :=
  if '0' ≤ c && c ≤ '9' then some (c.toNat - ('0').toNat)
  else if 'a' ≤ c && c ≤ 'f' then some (c.toNat - ('a').toNat + 10)
  else if 'A' ≤ c && c ≤ 'F' then some (c.toNat - ('A').toNat + 10)
  else none

/-- Body of a JSON string, after the opening quote.  Returns the decoded
characters and the remaining input after the closing quote. -/
def lexStr : List Char → Option (List Char × List Char)
  | [] => none
  | '"' :: r => some ([], r)
  | '\\' :: e :: r =>
    match e with
    | '"' => (lexStr r).map (fun p => ('"' :: p.1, p.2))
    | '\\' => (lexStr r).map (fun p => ('\\' :: p.1, p.2))
    | '/' => (lexStr r).map (fun p => ('/' :: p.1, p.2))
    | 'b' => (lexStr r).map (fun p => (Char.ofNat 8 :: p.1, p.2))
    | 'f' => (lexStr r).map (fun p => (Char.ofNat 12 :: p.1, p.2))
    | 'n' => (lexStr r).map (fun p => ('\n' :: p.1, p.2))
    | 'r' => (lexStr r).map (fun p => ('\r' :: p.1, p.2))
    | 't' => (lexStr r).map (fun p => ('\t' :: p.1, p.2))
    | 'u' =>
      match r with
      | h1 :: h2 :: h3 :: h4 :: r2 =>
        match hexVal h1, hexVal h2, hexVal h3, hexVal h4 with
        | some a, some b, some c, some d =>
          (lexStr r2).map (fun p => (Char.ofNat (((a * 16 + b) * 16 + c) * 16 + d) :: p.1, p.2))
        | _, _, _, _ => none
      | _ => none
    | _ => none
  | c :: r =>
    if c.toNat < 32 then none
    else (lexStr r).map (fun p => (c :: p.1, p.2))

mutual

/-- Recursive-descent parser for one JSON value (fuel-indexed). -/
def parseValue : Nat → List Char → Option (Json × List Char)
  | 0, _ => none
  | Nat.succ fuel, l =>
    match dropWs l with
    | '{' :: r =>
      match dropWs r with
      | '}' :: r2 => some (Json.obj [], r2)
      | r2 => (parseMembers fuel r2).map (fun p => (Json.obj p.1, p.2))
    | '[' :: r =>
      match dropWs r with
      | ']' :: r2 => some (Json.arr [], r2)
      | r2 => (parseItems fuel r2).map (fun p => (Json.arr p.1, p.2))
    | '"' :: r => (lexStr r).map (fun p => (Json.str (String.mk p.1), p.2))
    | 't' :: r => (parseLit (['r', 'u', 'e']) r).map (fun rest => (Json.bool true, rest))
    | 'f' :: r => (parseLit (['a', 'l', 's', 'e']) r).map (fun rest => (Json.bool false, rest))
    | 'n' :: r => (parseLit (['u', 'l', 'l']) r).map (fun rest => (Json.null, rest))
    | l2 => (lexNumber l2).map (fun p => (Json.num (String.mk p.1), p.2))

/-- One or more comma-separated array items, ending with a closing bracket. -/
def parseItems : Nat → List Char → Option (List Json × List Char)
  | 0, _ => none
  | Nat.succ fuel, l =>
    match parseValue fuel l with
    | none => none
    | some (v, r) =>
      match dropWs r with
      | ',' :: r2 => (parseItems fuel r2).map (fun p => (v :: p.1, p.2))
      | ']' :: r2 => some ([v], r2)
      | _ => none

/-- One or more comma-separated object members, ending with a closing brace. -/
def parseMembers : Nat → List Char → Option (List (String × Json) × List Char)
  | 0, _ => none
  | Nat.succ fuel, l =>
    match dropWs l with
    | '"' :: r =>
      match lexStr r with
      | none => none
      | some (k, r1) =>
        match dropWs r1 with
        | ':' :: r2 =>
          match parseValue fuel r2 with
          | none => none
          | some (v, r3) =>
            match dropWs r3 with
            | ',' :: r4 => (parseMembers fuel r4).map (fun p => ((String.mk k, v) :: p.1, p.2))
            | '}' :: r4 => some ([(String.mk k, v)], r4)
            | _ => none
        | _ => none
    | _ => none

end

/-- Model of `JSON.parse` on a whole line: one value, optionally surrounded by
whitespace; anything else (including trailing garbage) throws, i.e. `none`. -/
def jsonParse (l : List Char) : Option Json :=
  match parseValue (2 * l.length + 4) l with
  | none => none
  | some (v, rest) => if dropWs rest = [] then some v else none

/-- Sample row values used by the concrete scenarios of the spec. -/
def rowA1 : Json := Json.obj [(("a"), Json.num ("1"))]

def rowA2 : Json := Json.obj [(("a"), Json.num ("2"))]

example : jsonParse (("[\x7b\"a\":1\x7d]").toList) = some (Json.arr [rowA1]) := by rfl

example : jsonParse (("not-json").toList) = none := by rfl

example : jsonParse (("").toList) = none := by rfl

/- Frame decoder (ModelContext.tsx `generatePreview`, streaming loop):

    buffer += decoder.decode(value, \x7b stream: true \x7d);
    let lines = buffer.split('\n');
    buffer = lines.pop() || '';
    for (const line of lines)
      if (line.trim()) \x7b
        const chunk = JSON.parse(line);       // no per-line try/catch
        allRows = allRows.concat(chunk); ...
      \x7d
-/

/-- JavaScript `s.split('\n')` expressed as (first segment, later segments);
`split` always returns at least one element. -/
def splitNl1 : List Char → List Char × List (List Char)
  | [] => ([], [])
  | c :: r =>
    let p := splitNl1 r
    if c = '\n' then ([], p.1 :: p.2) else (c :: p.1, p.2)

/-- The full (nonempty) segment list of `s.split('\n')`. -/
def segsOf (l : List Char) : List (List Char) :=
  (splitNl1 l).1 :: (splitNl1 l).2

example : segsOf (("a\nbc\n").toList) = [(("a").toList), (("bc").toList), []] := by rfl

example : segsOf [] = [[]] := by rfl

/-- `Array.prototype.concat` semantics of `allRows.concat(chunk)`: an array
argument contributes its elements, any other value is appended as one element. -/
def jsonRows : Json → List Json
  | Json.arr xs => xs
  | v => [v]

/-- Decoding of one candidate segment in `generatePreview`: blank segments are
skipped, a parse failure throws (`Except.error`). -/
def segRows (line : List Char) : Except Unit (List Json) :=
  if jsTrim line = [] then Except.ok []
  else
    match jsonParse line with
    | some v => Except.ok (jsonRows v)
    | none => Except.error ()

/-- The `for (const line of lines)` loop of one decode pass, restricted to the
records it emits. -/
def decodeSegs : List (List Char) → Except Unit (List Json)
  | [] => Except.ok []
  | s :: rest =>
    match segRows s with
    | Except.error e => Except.error e
    | Except.ok r =>
      match decodeSegs rest with
      | Except.error e => Except.error e
      | Except.ok rs => Except.ok (r ++ rs)

/-- One decode pass of `generatePreview`: concatenate the carried tail with the
new chunk, split on newlines, pop the final segment as the new tail, decode
every earlier segment in order. -/
def framePass (buffer chunk : List Char) : Except Unit (List Json × List Char) :=
  match decodeSegs (segsOf (buffer ++ chunk)).dropLast with
  | Except.error e => Except.error e
  | Except.ok recs => Except.ok (recs, (segsOf (buffer ++ chunk)).getLastD [])

/-- Sequential decoding of a list of chunks, carrying the tail between the
passes and concatenating the emitted records, starting from `buffer`. -/
def frameSeq : List Char → List (List Char) → Except Unit (List Json × List Char)
  | buffer, [] => Except.ok ([], buffer)
  | buffer, c :: cs =>
    match framePass buffer c with
    | Except.error e => Except.error e
    | Except.ok (r1, t1) =>
      match frameSeq t1 cs with
      | Except.error e => Except.error e
      | Except.ok (r2, t2) => Except.ok (r1 ++ r2, t2)

/- App.tsx `handleModelConfirm` decoder: each freshly decoded chunk is split on
newlines on its own (no carried tail) and every segment, the last included, is
parsed inside try \x7b ... \x7d catch \x7b\x7d, keeping only array results. -/

/-- One segment of the `handleModelConfirm` decoder. -/
def hmcSeg (acc : List Json) (seg : List Char) : List Json :=
  if jsTrim seg = [] then acc
  else
    match jsonParse seg with
    | some (Json.arr xs) => acc ++ xs
    | _ => acc

/-- One chunk of the `handleModelConfirm` decoder. -/
def hmcChunk (acc : List Json) (text : List Char) : List Json :=
  (segsOf text).foldl hmcSeg acc

/- Split-invariance infrastructure: `s.split('\n')` distributes over string
concatenation by gluing the final segment of the left part onto the first
segment of the right part. -/

theorem splitNl1_nil : splitNl1 [] = ([], []) := rfl

theorem splitNl1_cons (c : Char) (r : List Char) :
    splitNl1 (c :: r) =
      if c = '\n' then ([], (splitNl1 r).1 :: (splitNl1 r).2)
      else (c :: (splitNl1 r).1, (splitNl1 r).2) := rfl

theorem segsOf_eq (l : List Char) : segsOf l = (splitNl1 l).1 :: (splitNl1 l).2 := rfl

theorem segsOf_cons_nl (r : List Char) : segsOf ('\n' :: r) = [] :: segsOf r := rfl

/-- Prepend a character to the first segment of a nonempty segment list. -/
def consHead (c : Char) : List (List Char) → List (List Char)
  | [] => [[c]]
  | h :: t => (c :: h) :: t

theorem segsOf_cons_no (c : Char) (r : List Char) (h : ¬c = '\n') :
    segsOf (c :: r) = consHead c (segsOf r) := by
  simp [segsOf_eq, splitNl1_cons, if_neg h, consHead]

/-- Glue two segment lists: the last segment of the first list is concatenated
with the first segment of the second list. -/
def segAppend : List (List Char) → List (List Char) → List (List Char)
  | [], l2 => l2
  | [s], l2 =>
    match l2 with
    | [] => [s]
    | h :: t => (s ++ h) :: t
  | s :: s2 :: rest, l2 => s :: segAppend (s2 :: rest) l2

theorem consHead_segAppend (c : Char) (h : List Char) (t B : List (List Char)) :
    segAppend (consHead c (h :: t)) B = consHead c (segAppend (h :: t) B) := by
  cases t with
  | nil => cases B <;> simp [segAppend, consHead]
  | cons x xs => simp [segAppend, consHead]

theorem segsOf_append : ∀ a b : List Char, segsOf (a ++ b) = segAppend (segsOf a) (segsOf b) := by
  intro a
  induction a with
  | nil =>
    intro b
    rw [List.nil_append, segsOf_eq (l := []), segsOf_eq b]
    simp [splitNl1_nil, segAppend]
  | cons c a' ih =>
    intro b
    by_cases hc : c = '\n'
    · subst hc
      rw [List.cons_append, segsOf_cons_nl, segsOf_cons_nl, ih b]
      rw [segsOf_eq a']
      rfl
    · rw [List.cons_append, segsOf_cons_no c _ hc, segsOf_cons_no c _ hc, ih b]
      rw [segsOf_eq a']
      exact (consHead_segAppend c _ _ _).symm

theorem segAppend_split : ∀ (s : List Char) (t B : List (List Char)),
    segAppend (s :: t) B = (s :: t).dropLast ++ segAppend [(s :: t).getLastD []] B := by
  intro s t
  induction t generalizing s with
  | nil => intro B; simp
  | cons x xs ih =>
    intro B
    have h1 : segAppend (s :: x :: xs) B = s :: segAppend (x :: xs) B := rfl
    rw [h1, ih x B]
    simp [List.getLastD_cons]

theorem getLastD_cons_indep {α : Type} (y : α) (ys : List α) (d d' : α) :
    (y :: ys).getLastD d = (y :: ys).getLastD d' := by
  rw [List.getLastD_cons, List.getLastD_cons]

theorem getLastD_append {α : Type} (xs : List α) (y : α) (ys : List α) (d : α) :
    (xs ++ y :: ys).getLastD d = (y :: ys).getLastD d := by
  induction xs with
  | nil => rfl
  | cons x xs ih =>
    rw [List.cons_append, List.getLastD_cons]
    cases hx : xs ++ y :: ys with
    | nil => exact absurd hx (by simp)
    | cons h t =>
      rw [getLastD_cons_indep h t x d, ← hx, ih]

theorem dropLast_append_cons {α : Type} (xs : List α) (y : α) (ys : List α) :
    (xs ++ y :: ys).dropLast = xs ++ (y :: ys).dropLast := by
  induction xs with
  | nil => rfl
  | cons x xs ih =>
    rw [List.cons_append]
    cases hx : xs ++ y :: ys with
    | nil => exact absurd hx (by simp)
    | cons h t =>
      rw [List.dropLast_cons₂, ← hx, ih]
      rfl

theorem getLastD_mem {α : Type} : ∀ (h : α) (t : List α) (d : α), (h :: t).getLastD d ∈ h :: t := by
  intro h t
  induction t generalizing h with
  | nil => intro d; simp
  | cons x xs ih =>
    intro d
    rw [List.getLastD_cons]
    exact List.mem_cons_of_mem h (ih x d)

theorem splitNl1_noNl : ∀ l : List Char,
    ('\n' ∉ (splitNl1 l).1) ∧ (∀ s ∈ (splitNl1 l).2, '\n' ∉ s) := by
  intro l
  induction l with
  | nil => simp [splitNl1_nil]
  | cons c r ih =>
    by_cases hc : c = '\n'
    · subst hc
      simp only [splitNl1_cons, if_pos rfl]
      refine ⟨by simp, ?_⟩
      intro s hs
      rcases List.mem_cons.mp hs with h1 | h2
      · exact h1 ▸ ih.1
      · exact ih.2 s h2
    · simp only [splitNl1_cons, if_neg hc]
      refine ⟨?_, ih.2⟩
      intro hmem
      rcases List.mem_cons.mp hmem with h1 | h2
      · exact hc h1.symm
      · exact ih.1 h2

theorem segsOf_noNl (l : List Char) : ∀ s ∈ segsOf l, '\n' ∉ s := by
  intro s hs
  rw [segsOf_eq] at hs
  rcases List.mem_cons.mp hs with h1 | h2
  · exact h1 ▸ (splitNl1_noNl l).1
  · exact (splitNl1_noNl l).2 s h2

theorem tailSeg_noNl (l : List Char) : '\n' ∉ (segsOf l).getLastD [] := by
  rw [segsOf_eq]
  exact segsOf_noNl l _ (by rw [segsOf_eq]; exact getLastD_mem _ _ _)

theorem splitNl1_of_noNl : ∀ l : List Char, '\n' ∉ l → splitNl1 l = (l, []) := by
  intro l
  induction l with
  | nil => intro _; rfl
  | cons c r ih =>
    intro h
    have hc : ¬c = '\n' := fun hcc => h (hcc ▸ List.mem_cons_self c r)
    have hr : '\n' ∉ r := fun hrr => h (List.mem_cons_of_mem c hrr)
    rw [splitNl1_cons, if_neg hc, ih hr]

theorem segsOf_of_noNl (l : List Char) (h : '\n' ∉ l) : segsOf l = [l] := by
  rw [segsOf_eq, splitNl1_of_noNl l h]

theorem segAppend_split' (l : List Char) (B : List (List Char)) :
    segAppend (segsOf l) B = (segsOf l).dropLast ++ segAppend [(segsOf l).getLastD []] B := by
  rw [segsOf_eq]
  exact segAppend_split _ _ B

theorem decodeSegs_append : ∀ P Q : List (List Char),
    decodeSegs (P ++ Q) =
      match decodeSegs P with
      | Except.error e => Except.error e
      | Except.ok r =>
        match decodeSegs Q with
        | Except.error e => Except.error e
        | Except.ok s => Except.ok (r ++ s) := by
  intro P Q
  induction P with
  | nil =>
    rw [List.nil_append]
    cases hq : decodeSegs Q with
    | error e => rfl
    | ok s => simp [decodeSegs]
  | cons s P ih =>
    rw [List.cons_append]
    cases hs : segRows s with
    | error e => simp [decodeSegs, hs]
    | ok r =>
      cases hp : decodeSegs P with
      | error e => simp [decodeSegs, hs, ih, hp]
      | ok r2 =>
        cases hq : decodeSegs Q with
        | error e => simp [decodeSegs, hs, ih, hp, hq]
        | ok r3 => simp [decodeSegs, hs, ih, hp, hq]

/-- Splitting a three-part concatenation: the segments of `buffer ++ a ++ b`
are the complete segments of `buffer ++ a` followed by the segments of its
tail glued onto `b`. -/
theorem segsOf_decomp (buffer a b : List Char) :
    segsOf (buffer ++ (a ++ b)) =
      (segsOf (buffer ++ a)).dropLast ++ segsOf ((segsOf (buffer ++ a)).getLastD [] ++ b) := by
  rw [← List.append_assoc, segsOf_append (buffer ++ a) b, segAppend_split',
      segsOf_append _ b, segsOf_of_noNl _ (tailSeg_noNl _)]

theorem segsOf_decomp_dropLast (buffer a b : List Char) :
    (segsOf (buffer ++ (a ++ b))).dropLast =
      (segsOf (buffer ++ a)).dropLast ++
        (segsOf ((segsOf (buffer ++ a)).getLastD [] ++ b)).dropLast := by
  rw [segsOf_decomp buffer a b, segsOf_eq ((segsOf (buffer ++ a)).getLastD [] ++ b)]
  exact dropLast_append_cons _ _ _

theorem segsOf_decomp_getLastD (buffer a b : List Char) :
    (segsOf (buffer ++ (a ++ b))).getLastD [] =
      (segsOf ((segsOf (buffer ++ a)).getLastD [] ++ b)).getLastD [] := by
  rw [segsOf_decomp buffer a b, segsOf_eq ((segsOf (buffer ++ a)).getLastD [] ++ b)]
  exact getLastD_append _ _ _ _

theorem framePass_append (buffer a b : List Char) :
    framePass buffer (a ++ b) =
      match framePass buffer a with
      | Except.error e => Except.error e
      | Except.ok p =>
        match framePass p.2 b with
        | Except.error e => Except.error e
        | Except.ok q => Except.ok (p.1 ++ q.1, q.2) := by
  simp only [framePass, segsOf_decomp_dropLast buffer a b, segsOf_decomp_getLastD buffer a b,
             decodeSegs_append]
  cases h1 : decodeSegs (segsOf (buffer ++ a)).dropLast with
  | error e => rfl
  | ok r1 =>
    cases h2 : decodeSegs (segsOf ((segsOf (buffer ++ a)).getLastD [] ++ b)).dropLast with
    | error e =>
      simp only [List.getLastD_eq_getLast?] at h2
      simp [h2]
    | ok r2 =>
      simp only [List.getLastD_eq_getLast?] at h2
      simp [h2]

theorem framePass_tail_noNl {buffer chunk : List Char} {r : List Json} {t : List Char}
    (h : framePass buffer chunk = Except.ok (r, t)) : '\n' ∉ t := by
  unfold framePass at h
  cases hd : decodeSegs (segsOf (buffer ++ chunk)).dropLast with
  | error e => rw [hd] at h; exact absurd h (by simp)
  | ok recs =>
    rw [hd] at h
    simp only [Except.ok.injEq, Prod.mk.injEq] at h
    rw [← h.2]
    exact tailSeg_noNl _

/-- Core split-invariance: feeding any chunk list sequentially through the
decode pass of `generatePreview`, starting from a tail that holds no record
delimiter, produces exactly the outcome of decoding the concatenation in one
pass — same records in the same order, same final tail, and the same
thrown-or-not parse verdict. -/
theorem frameSeq_join : ∀ (cs : List (List Char)) (buffer : List Char), '\n' ∉ buffer →
    frameSeq buffer cs = framePass buffer cs.flatten := by
  intro cs
  induction cs with
  | nil =>
    intro buffer h
    have hb : buffer ++ List.flatten ([] : List (List Char)) = buffer := by simp
    simp only [frameSeq, framePass, hb, segsOf_of_noNl buffer h]
    rfl
  | cons c cs ih =>
    intro buffer h
    rw [List.flatten_cons, framePass_append]
    cases hfp : framePass buffer c with
    | error e => simp [frameSeq, hfp]
    | ok p =>
      obtain ⟨r1, t1⟩ := p
      have ht1 : '\n' ∉ t1 := framePass_tail_noNl hfp
      simp only [frameSeq, hfp, ← ih t1 ht1]
      cases frameSeq t1 cs with
      | error e => rfl
      | ok q => rfl

/- Streaming ingestion session of `generatePreview` (ModelContext.tsx): per-pull
loop body with its observable effects — `allRows`, the `setPreviewData`
deliveries (one batch per parsed segment), `chunkCount`, `rowCount` and the
`setPreviewProgress` notifications. -/

/-- Value held by the `rowCount` accumulator across `rowCount += chunk.length`
steps.  `num n` is the exact integer value, `nan` is NaN (from adding
`undefined`).  `untracked` covers the one coarsened corner: an object carrying
an own `"length"` member feeds an arbitrary JSON value through JavaScript's
coercing `+`, whose outcomes (float64 `ToNumber` of arbitrary number literals,
string concatenation with float formatting) are beyond this discrete model, so
they are recorded as `untracked` rather than mis-stated; no theorem below draws
any conclusion from an `untracked` counter. -/
inductive RowCount where
  | num : Nat → RowCount
  | nan : RowCount
  | untracked : RowCount
deriving Repr, DecidableEq

/-- JavaScript `String.prototype.length` counts UTF-16 code units: an astral
code point contributes two. -/
def utf16Len (s : String) : Nat :=
  (s.data.map (fun c => if 65536 ≤ c.toNat then 2 else 1)).sum

def rcAddNum : RowCount → Nat → RowCount
  | RowCount.num n, m => RowCount.num (n + m)
  | RowCount.nan, _ => RowCount.nan
  | RowCount.untracked, _ => RowCount.untracked

/-- `rowCount += undefined`: a number becomes NaN; NaN stays NaN; an untracked
value stays untracked. -/
def rcAddUndef : RowCount → RowCount
  | RowCount.num _ => RowCount.nan
  | RowCount.nan => RowCount.nan
  | RowCount.untracked => RowCount.untracked

/-- `rowCount += chunk.length` for a `JSON.parse` result `chunk`: arrays and
strings have a numeric `length` (the string length in UTF-16 code units);
numbers and booleans have none (`undefined`, so the counter becomes NaN), and
likewise a plain object without an own `"length"` member; an object with such
a member yields that member's value, coarsened to `untracked` (see `RowCount`);
on `null` the property access itself throws a TypeError. -/
def rowAdd (rc : RowCount) : Json → Except Unit RowCount
  | Json.null => Except.error ()
  | Json.bool _ => Except.ok (rcAddUndef rc)
  | Json.num _ => Except.ok (rcAddUndef rc)
  | Json.str s => Except.ok (rcAddNum rc (utf16Len s))
  | Json.arr xs => Except.ok (rcAddNum rc xs.length)
  | Json.obj fs =>
    Except.ok (if fs.any (fun p => p.1 == ("length")) then RowCount.untracked else rcAddUndef rc)

structure Session where
  buffer : List Char
  allRows : List Json
  batches : List (List Json)
  chunks : Nat
  rows : RowCount
  progress : List (Nat × RowCount)
deriving Repr

/-- Body of `for (const line of lines)` in `generatePreview`: skip blank lines,
parse (throwing on failure), append the rows, deliver one batch, bump the batch
counter, add `chunk.length` to the row counter (throwing the TypeError on a
parsed `null`), then emit the progress notification carrying the new counters.
When the length access throws, the source has already run the concat, the
delivery and `chunkCount++`, but those live in local variables or are wiped by
the catch block's `setPreviewData(null)`, so discarding them in the error case
is observationally faithful. -/
def lineStep (st : Session) (line : List Char) : Except Unit Session :=
  if jsTrim line = [] then Except.ok st
  else
    match jsonParse line with
    | none => Except.error ()
    | some v =>
      match rowAdd st.rows v with
      | Except.error e => Except.error e
      | Except.ok rc2 =>
        Except.ok { st with
          allRows := st.allRows ++ jsonRows v,
          batches := st.batches ++ [jsonRows v],
          chunks := st.chunks + 1,
          rows := rc2,
          progress := st.progress ++ [(st.chunks + 1, rc2)] }

def runLines (st : Session) : List (List Char) → Except Unit Session
  | [] => Except.ok st
  | l :: ls =>
    match lineStep st l with
    | Except.error e => Except.error e
    | Except.ok st2 => runLines st2 ls

/-- One pull of the streaming loop: append the decoded chunk text to the
buffer, split on newlines, pop the final segment back into the buffer, then run
the line loop over the complete segments. -/
def pullChunk (st : Session) (chunk : List Char) : Except Unit Session :=
  runLines { st with buffer := (segsOf (st.buffer ++ chunk)).getLastD [] }
    (segsOf (st.buffer ++ chunk)).dropLast

/-- Session state right after `setPreviewData([])` and
`setPreviewProgress(\x7bchunks: 0, rows: 0\x7d)`. -/
def sessionInit : Session :=
  { buffer := [], allRows := [], batches := [], chunks := 0, rows := RowCount.num 0, progress := [] }

def sessionSteps : Session → List (List Char) → Except Unit Session
  | st, [] => Except.ok st
  | st, c :: cs =>
    match pullChunk st c with
    | Except.error e => Except.error e
    | Except.ok st2 => sessionSteps st2 cs

/-- The whole `while (true)` read loop of `generatePreview` over a given
sequence of pulled chunks; when `reader.read()` reports `done` the loop simply
breaks — nothing further is done with the buffer. -/
def sessionRun (chunks : List (List Char)) : Except Unit Session :=
  sessionSteps sessionInit chunks

/- The surrounding `generatePreview` function: dimension guard, fetch, session,
catch and finally blocks, modelled as a function from the pre-call context
state and the fetch outcome to the post-call context state plus a flag showing
whether the network request was issued.  Toast notices are collected in
`errors`; exact host error-message texts are abstracted by the constants
below. -/

structure Dimension where
  id : String
  name : String
  members : List String
deriving Repr, DecidableEq

structure Ctx where
  previewLoading : Bool
  previewData : Option (List Json)
  progressChunks : Nat
  progressRows : RowCount
  errors : List String
deriving Repr

/-- Outcome of `fetch('/generate-stream')`: a non-ok/absent-body response, or a
streamed body delivered as a list of chunk texts. -/
inductive FetchResult where
  | fail : FetchResult
  | ok : List (List Char) → FetchResult

def noDimsMsg : String := "You must define at least one dimension."

def streamFailMsg : String := "Preview Error: Failed to stream preview data."

def parseFailMsg : String := "Preview Error: JSON parse failure"

/-- `generatePreview`, final observable outcome.  Returns the new context state
and whether the fetch was issued. -/
def generatePreviewRun (dims : List Dimension) (resp : FetchResult) (ctx : Ctx) : Ctx × Bool :=
  if dims.length = 0 then
    ({ ctx with errors := ctx.errors ++ [noDimsMsg] }, false)
  else
    match resp with
    | FetchResult.fail =>
      ({ ctx with previewLoading := false, previewData := none,
                  progressChunks := 0, progressRows := RowCount.num 0,
                  errors := ctx.errors ++ [streamFailMsg] }, true)
    | FetchResult.ok chunks =>
      match sessionRun chunks with
      | Except.error _ =>
        ({ ctx with previewLoading := false, previewData := none,
                    progressChunks := 0, progressRows := RowCount.num 0,
                    errors := ctx.errors ++ [parseFailMsg] }, true)
      | Except.ok st =>
        ({ ctx with previewLoading := false, previewData := some st.allRows,
                    progressChunks := st.chunks, progressRows := st.rows }, true)

theorem rowAdd_ok (rc : RowCount) (v : Json) (hv : v ≠ Json.null) :
    ∃ rc2, rowAdd rc v = Except.ok rc2 := by
  cases v with
  | null => exact absurd rfl hv
  | bool b => exact ⟨_, rfl⟩
  | num s => exact ⟨_, rfl⟩
  | str s => exact ⟨_, rfl⟩
  | arr xs => exact ⟨_, rfl⟩
  | obj fs => exact ⟨_, rfl⟩

theorem lineStep_ok_shape {st : Session} {l : List Char} {v : Json} {rc2 : RowCount}
    (hb : ¬jsTrim l = []) (hp : jsonParse l = some v) (hra : rowAdd st.rows v = Except.ok rc2) :
    lineStep st l = Except.ok { st with
      allRows := st.allRows ++ jsonRows v,
      batches := st.batches ++ [jsonRows v],
      chunks := st.chunks + 1,
      rows := rc2,
      progress := st.progress ++ [(st.chunks + 1, rc2)] } := by
  simp [lineStep, hb, hp, hra]

theorem runLines_rows : ∀ (ls : List (List Char)) (st : Session),
    (∀ l ∈ ls, jsonParse l ≠ some Json.null) →
    (runLines st ls).map (fun s => (s.allRows, s.buffer)) =
      (decodeSegs ls).map (fun r => (st.allRows ++ r, st.buffer)) := by
  intro ls
  induction ls with
  | nil => intro st _; simp [runLines, decodeSegs, Except.map]
  | cons l ls ih =>
    intro st hnn
    have hnl : jsonParse l ≠ some Json.null := hnn l (List.mem_cons_self l ls)
    have hnn2 : ∀ l2 ∈ ls, jsonParse l2 ≠ some Json.null :=
      fun l2 h2 => hnn l2 (List.mem_cons_of_mem l h2)
    by_cases hb : jsTrim l = []
    · have hseg : segRows l = Except.ok [] := by simp [segRows, hb]
      have hls : lineStep st l = Except.ok st := by simp [lineStep, hb]
      simp only [runLines, hls, decodeSegs, hseg, ih st hnn2]
      cases decodeSegs ls with
      | error e => rfl
      | ok rs => simp [Except.map]
    · cases hp : jsonParse l with
      | none =>
        have hseg : segRows l = Except.error () := by simp [segRows, hb, hp]
        have hls : lineStep st l = Except.error () := by simp [lineStep, hb, hp]
        simp [runLines, hls, decodeSegs, hseg, Except.map]
      | some v =>
        have hv : v ≠ Json.null := fun hveq => hnl (hveq ▸ hp)
        obtain ⟨rc2, hra⟩ := rowAdd_ok st.rows v hv
        have hseg : segRows l = Except.ok (jsonRows v) := by simp [segRows, hb, hp]
        have hls := lineStep_ok_shape hb hp hra
        simp only [runLines, hls, decodeSegs, hseg, ih _ hnn2]
        cases decodeSegs ls with
        | error e => rfl
        | ok rs => simp [Except.map, List.append_assoc]

theorem lineStep_setBuffer (st : Session) (l : List Char) (t : List Char) :
    lineStep { st with buffer := t } l = (lineStep st l).map (fun s => { s with buffer := t }) := by
  by_cases hb : jsTrim l = []
  · simp [lineStep, hb, Except.map]
  · cases hp : jsonParse l with
    | none =>
      have h1 : lineStep { st with buffer := t } l = Except.error () := by
        simp [lineStep, hb, hp]
      have h2 : lineStep st l = Except.error () := by
        simp [lineStep, hb, hp]
      rw [h1, h2]
      rfl
    | some v =>
      cases hra : rowAdd st.rows v with
      | error e =>
        have h1 : lineStep { st with buffer := t } l = Except.error e := by
          simp [lineStep, hb, hp, hra]
        have h2 : lineStep st l = Except.error e := by
          simp [lineStep, hb, hp, hra]
        rw [h1, h2]
        rfl
      | ok rc2 =>
        have h1 := @lineStep_ok_shape { st with buffer := t } l v rc2 hb hp hra
        have h2 := @lineStep_ok_shape st l v rc2 hb hp hra
        rw [h1, h2]
        rfl

theorem runLines_setBuffer : ∀ (ls : List (List Char)) (st : Session) (t : List Char),
    runLines { st with buffer := t } ls = (runLines st ls).map (fun s => { s with buffer := t }) := by
  intro ls
  induction ls with
  | nil => intro st t; rfl
  | cons l ls ih =>
    intro st t
    simp only [runLines, lineStep_setBuffer]
    cases hls : lineStep st l with
    | error e => rfl
    | ok m => exact ih m t

theorem runLines_append : ∀ (P Q : List (List Char)) (st : Session),
    runLines st (P ++ Q) =
      match runLines st P with
      | Except.error e => Except.error e
      | Except.ok m => runLines m Q := by
  intro P
  induction P with
  | nil => intro Q st; rfl
  | cons l P ih =>
    intro Q st
    rw [List.cons_append]
    cases hls : lineStep st l with
    | error e => simp [runLines, hls]
    | ok m => simp [runLines, hls, ih]

theorem lineStep_buffer {st st2 : Session} {l : List Char}
    (h : lineStep st l = Except.ok st2) : st2.buffer = st.buffer := by
  by_cases hb : jsTrim l = []
  · have hls : lineStep st l = Except.ok st := by simp [lineStep, hb]
    rw [hls] at h
    cases h
    rfl
  · cases hp : jsonParse l with
    | none =>
      have hls : lineStep st l = Except.error () := by simp [lineStep, hb, hp]
      rw [hls] at h
      exact absurd h (by simp)
    | some v =>
      cases hra : rowAdd st.rows v with
      | error e =>
        have hls : lineStep st l = Except.error e := by simp [lineStep, hb, hp, hra]
        rw [hls] at h
        exact absurd h (by simp)
      | ok rc2 =>
        have hls := lineStep_ok_shape hb hp hra
        rw [hls] at h
        cases h
        rfl

theorem runLines_buffer : ∀ {ls : List (List Char)} {st m : Session},
    runLines st ls = Except.ok m → m.buffer = st.buffer := by
  intro ls
  induction ls with
  | nil =>
    intro st m h
    cases h
    rfl
  | cons l ls ih =>
    intro st m h
    unfold runLines at h
    cases hls : lineStep st l with
    | error e => rw [hls] at h; exact absurd h (by simp)
    | ok st2 =>
      rw [hls] at h
      rw [ih h, lineStep_buffer hls]

/-- With a delimiter-free buffer, an empty pull list leaves the session
untouched (no segment completes, the buffer is popped back unchanged). -/
theorem pullChunk_nil (st : Session) (h : '\n' ∉ st.buffer) : pullChunk st [] = Except.ok st := by
  unfold pullChunk
  rw [List.append_nil, segsOf_of_noNl st.buffer h]
  rfl

/-- Pull composition: pulling `a ++ b` in one read equals pulling `a` then `b`
— the full-state version of decode split-invariance. -/
theorem pullChunk_append (st : Session) (a b : List Char) :
    pullChunk st (a ++ b) =
      match pullChunk st a with
      | Except.error e => Except.error e
      | Except.ok m => pullChunk m b := by
  simp only [pullChunk, segsOf_decomp_dropLast st.buffer a b, segsOf_decomp_getLastD st.buffer a b,
             runLines_append, runLines_setBuffer]
  cases hr : runLines st (segsOf (st.buffer ++ a)).dropLast with
  | error e => rfl
  | ok m =>
    simp only [Except.map, runLines_setBuffer]
    cases hr2 : runLines m (segsOf ((segsOf (st.buffer ++ a)).getLastD [] ++ b)).dropLast with
    | error e => rfl
    | ok v => rfl

theorem pullChunk_tail_noNl {st m : Session} {c : List Char}
    (h : pullChunk st c = Except.ok m) : '\n' ∉ m.buffer := by
  unfold pullChunk at h
  have hb := runLines_buffer h
  rw [hb]
  exact tailSeg_noNl _

/-- Session-level split invariance, full state: starting from a delimiter-free
buffer, any sequence of pulls produces exactly the state of one pull over the
concatenated text. -/
theorem sessionSteps_flatten : ∀ (cs : List (List Char)) (st : Session), '\n' ∉ st.buffer →
    sessionSteps st cs = pullChunk st cs.flatten := by
  intro cs
  induction cs with
  | nil => intro st h; exact (pullChunk_nil st h).symm
  | cons c cs ih =>
    intro st h
    rw [List.flatten_cons, pullChunk_append]
    cases hpc : pullChunk st c with
    | error e => simp [sessionSteps, hpc]
    | ok m =>
      simp only [sessionSteps, hpc]
      exact ih m (pullChunk_tail_noNl hpc)

/-- Counter/batch invariant of the streaming loop: the batch counter equals the
number of delivered batches, the accumulated rows are exactly the delivered
batches in order, and one progress notification is emitted per batch, carrying
the freshly incremented counters. -/
def sessionInv (st : Session) : Prop :=
  st.chunks = st.batches.length ∧
  st.allRows = st.batches.flatten ∧
  st.progress.length = st.batches.length ∧
  st.progress.getLastD (0, RowCount.num 0) = (st.chunks, st.rows)

theorem lineStep_inv {st st2 : Session} {l : List Char}
    (h : sessionInv st) (hstep : lineStep st l = Except.ok st2) : sessionInv st2 := by
  by_cases hb : jsTrim l = []
  · have hls : lineStep st l = Except.ok st := by simp [lineStep, hb]
    rw [hls] at hstep
    cases hstep
    exact h
  · cases hp : jsonParse l with
    | none =>
      have hls : lineStep st l = Except.error () := by simp [lineStep, hb, hp]
      rw [hls] at hstep
      exact absurd hstep (by simp)
    | some v =>
      cases hra : rowAdd st.rows v with
      | error e =>
        have hls : lineStep st l = Except.error e := by simp [lineStep, hb, hp, hra]
        rw [hls] at hstep
        exact absurd hstep (by simp)
      | ok rc2 =>
        have hls := lineStep_ok_shape hb hp hra
        rw [hls] at hstep
        cases hstep
        obtain ⟨h1, h2, h3, h4⟩ := h
        refine ⟨by simp [h1], by simp [h2], by simp [h3], ?_⟩
        have hlast : (st.progress ++ [(st.chunks + 1, rc2)]).getLastD (0, RowCount.num 0)
            = (st.chunks + 1, rc2) := by
          rw [getLastD_append]
          rfl
        exact hlast

theorem runLines_inv : ∀ {ls : List (List Char)} {st st2 : Session},
    sessionInv st → runLines st ls = Except.ok st2 → sessionInv st2 := by
  intro ls
  induction ls with
  | nil =>
    intro st st2 h hrun
    cases hrun
    exact h
  | cons l ls ih =>
    intro st st2 h hrun
    unfold runLines at hrun
    cases hls : lineStep st l with
    | error e => rw [hls] at hrun; exact absurd hrun (by simp)
    | ok stm =>
      rw [hls] at hrun
      exact ih (lineStep_inv h hls) hrun

theorem sessionInv_setBuffer (st : Session) (t : List Char) :
    sessionInv { st with buffer := t } ↔ sessionInv st := by
  simp [sessionInv]

theorem pullChunk_inv {st st2 : Session} {c : List Char}
    (h : sessionInv st) (hpull : pullChunk st c = Except.ok st2) : sessionInv st2 := by
  unfold pullChunk at hpull
  exact runLines_inv ((sessionInv_setBuffer st _).mpr h) hpull

theorem sessionSteps_inv : ∀ {cs : List (List Char)} {st st2 : Session},
    sessionInv st → sessionSteps st cs = Except.ok st2 → sessionInv st2 := by
  intro cs
  induction cs with
  | nil =>
    intro st st2 h hrun
    cases hrun
    exact h
  | cons c cs ih =>
    intro st st2 h hrun
    unfold sessionSteps at hrun
    cases hpc : pullChunk st c with
    | error e => rw [hpc] at hrun; exact absurd hrun (by simp)
    | ok stm =>
      rw [hpc] at hrun
      exact ih (pullChunk_inv h hpc) hrun

theorem sessionInv_init : sessionInv sessionInit :=
  ⟨rfl, rfl, rfl, rfl⟩

theorem sessionRun_inv {cs : List (List Char)} {st : Session}
    (h : sessionRun cs = Except.ok st) : sessionInv st :=
  sessionSteps_inv sessionInv_init h

/-- A complete segment is benign for the row counter: it is blank or parses to
an array (the shape §6 of the spec promises for every stream segment). -/
def segArrOk (l : List Char) : Prop :=
  jsTrim l = [] ∨ ∃ xs, jsonParse l = some (Json.arr xs)

theorem runLines_rowsExact : ∀ {ls : List (List Char)} {st st2 : Session},
    (∀ l ∈ ls, segArrOk l) →
    st.rows = RowCount.num ((st.batches.map List.length).sum) →
    runLines st ls = Except.ok st2 →
    st2.rows = RowCount.num ((st2.batches.map List.length).sum) := by
  intro ls
  induction ls with
  | nil =>
    intro st st2 _ hrows hrun
    cases hrun
    exact hrows
  | cons l ls ih =>
    intro st st2 hseg hrows hrun
    have hseg2 : ∀ l2 ∈ ls, segArrOk l2 := fun l2 h2 => hseg l2 (List.mem_cons_of_mem l h2)
    unfold runLines at hrun
    by_cases hb : jsTrim l = []
    · have hls : lineStep st l = Except.ok st := by simp [lineStep, hb]
      rw [hls] at hrun
      exact ih hseg2 hrows hrun
    · rcases hseg l (List.mem_cons_self l ls) with hbl | ⟨xs, hpx⟩
      · exact absurd hbl hb
      · have hra : rowAdd st.rows (Json.arr xs) =
            Except.ok (RowCount.num (((st.batches.map List.length).sum) + xs.length)) := by
          rw [hrows]
          rfl
        have hls := lineStep_ok_shape hb hpx hra
        rw [hls] at hrun
        refine ih hseg2 ?_ hrun
        simp [jsonRows]

theorem sessionRun_rowsExact (cs : List (List Char))
    (harr : ∀ seg ∈ (segsOf cs.flatten).dropLast, segArrOk seg)
    {st : Session} (hrun : sessionRun cs = Except.ok st) :
    st.rows = RowCount.num ((st.batches.map List.length).sum) := by
  unfold sessionRun at hrun
  rw [sessionSteps_flatten cs sessionInit (by simp [sessionInit])] at hrun
  unfold pullChunk at hrun
  have hb : sessionInit.buffer ++ cs.flatten = cs.flatten := by
    simp [sessionInit]
  rw [hb] at hrun
  exact runLines_rowsExact harr rfl hrun

/- Status channel (src/stores/statusStore.ts).  The zustand store is embedded
as an explicit world: the store record, every WebSocket instance ever created
by `connectWebSocket` (each with its readyState), the pending `setTimeout`
callbacks, and a clock.  Handlers fire as externally driven events on the
socket they were installed on; `setTimeout` callbacks fire as `fire` actions.
Faithful detail: the store's `socket` field is assigned only inside the
`onopen` handler — the assignment after handler installation is commented out
in the source ("Redundant due to onopen setting it"). -/

def wsMaxReconnectAttempts : Nat := 5

def wsReconnectInterval : Nat := 5000

def wsNoticeDelay : Nat := 3000

def sConnecting : String := "Connecting to status service..."

def sConnected : String := "Status service connected."

def sWsError : String := "Status service connection error."

def sReconnecting : String := "Status service disconnected. Attempting to reconnect..."

def sMaxReached : String := "Status service disconnected. Max reconnect attempts reached."

def sGiveUp : String := "Status service disconnected. Please check backend and refresh."

/-- WebSocket readyState: CONNECTING(0), OPEN(1), CLOSING(2), CLOSED(3). -/
inductive SockState where
  | connecting : SockState
  | opened : SockState
  | closing : SockState
  | closed : SockState
deriving Repr, DecidableEq

structure Sock where
  sid : Nat
  state : SockState
deriving Repr, DecidableEq

inductive TimerKind where
  | reconnect : TimerKind
  | clearNotice : TimerKind
deriving Repr, DecidableEq

structure Timer where
  due : Nat
  kind : TimerKind
deriving Repr, DecidableEq

/-- The zustand store record of `useStatusStore`. -/
structure Store where
  latestStatus : String
  isConnected : Bool
  socketRef : Option Nat
  reconnectAttempts : Nat
deriving Repr, DecidableEq

structure World where
  now : Nat
  store : Store
  socks : List Sock
  timers : List Timer
  nextId : Nat
deriving Repr, DecidableEq

def findSock (w : World) (i : Nat) : Option Sock :=
  w.socks.find? (fun s => s.sid = i)

def setSockState (w : World) (i : Nat) (st : SockState) : World :=
  { w with socks := w.socks.map (fun s => if s.sid = i then { s with state := st } else s) }

/-- The guard `get().socket && get().socket?.readyState < 2`. -/
def sockReadyLt2 (w : World) : Bool :=
  match w.store.socketRef with
  | none => false
  | some i =>
    match findSock w i with
    | some s => s.state = SockState.connecting || s.state = SockState.opened
    | none => false

/-- `connectWebSocket`: no-op when the stored socket is CONNECTING or OPEN;
otherwise set the connecting notice and create a new WebSocket (handlers
installed, `socket` field of the store deliberately not assigned). -/
def connectWebSocket (w : World) : World :=
  if sockReadyLt2 w then w
  else
    { w with
      store := { w.store with latestStatus := sConnecting },
      socks := w.socks ++ [{ sid := w.nextId, state := SockState.connecting }],
      nextId := w.nextId + 1 }

/-- `disconnectWebSocket`: only acts when `get().socket` is non-null — set the
attempt counter to the maximum, call `close()` on the socket, then clear the
socket reference, the connected flag and the status text. -/
def disconnectWebSocket (w : World) : World :=
  match w.store.socketRef with
  | none => w
  | some i =>
    let w1 := { w with store := { w.store with reconnectAttempts := wsMaxReconnectAttempts } }
    let w2 := setSockState w1 i SockState.closing
    { w2 with store := { w2.store with socketRef := none, isConnected := false, latestStatus := "" } }

/-- The `onopen` handler of socket `i`: only a CONNECTING socket can open. -/
def onOpen (w : World) (i : Nat) : World :=
  match findSock w i with
  | none => w
  | some s =>
    if s.state = SockState.connecting then
      let w1 := setSockState w i SockState.opened
      let st2 := { w1.store with isConnected := true, latestStatus := sConnected, reconnectAttempts := 0, socketRef := some i }
      { w1 with store := st2, timers := w1.timers ++ [{ due := w1.now + wsNoticeDelay, kind := TimerKind.clearNotice }] }
    else w

/-- The `onmessage` handler of socket `i`: replace the status text verbatim. -/
def onMessage (w : World) (i : Nat) (text : String) : World :=
  match findSock w i with
  | none => w
  | some s =>
    if s.state = SockState.opened then
      { w with store := { w.store with latestStatus := text } }
    else w

/-- The `onerror` handler of socket `i`: status text only, no state change. -/
def onSockError (w : World) (i : Nat) : World :=
  match findSock w i with
  | none => w
  | some s =>
    if s.state = SockState.closed then w
    else { w with store := { w.store with latestStatus := sWsError } }

/-- The `onclose` handler of socket `i`: mark the socket closed, drop the
connected flag and the socket reference, set the reconnecting / max-reached
notice, then either bump the attempt counter and schedule a reconnect after
the fixed delay, or (at the maximum) set the give-up notice and schedule
nothing. -/
def onClose (w : World) (i : Nat) : World :=
  match findSock w i with
  | none => w
  | some s =>
    if s.state = SockState.closed then w
    else
      let w1 := setSockState w i SockState.closed
      let a := w1.store.reconnectAttempts
      let txt := if a < wsMaxReconnectAttempts then sReconnecting else sMaxReached
      let st2 := { w1.store with isConnected := false, socketRef := none, latestStatus := txt }
      let w2 := { w1 with store := st2 }
      if a < wsMaxReconnectAttempts then
        let st3 := { w2.store with reconnectAttempts := a + 1 }
        { w2 with store := st3, timers := w2.timers ++ [{ due := w2.now + wsReconnectInterval, kind := TimerKind.reconnect }] }
      else
        { w2 with store := { w2.store with latestStatus := sGiveUp } }

/-- Fire the pending `setTimeout` callback at index `idx`: a reconnect timer
runs `connectWebSocket`; the notice-clear timer clears the status text only if
it still equals the transient connected notice verbatim. -/
def fireTimer (w : World) (idx : Nat) : World :=
  match w.timers.get? idx with
  | none => w
  | some t =>
    let w1 := { w with timers := w.timers.eraseIdx idx, now := max w.now t.due }
    match t.kind with
    | TimerKind.reconnect => connectWebSocket w1
    | TimerKind.clearNotice =>
      if w1.store.latestStatus = sConnected then
        { w1 with store := { w1.store with latestStatus := "" } }
      else w1

inductive Act where
  | connect : Act
  | disconnect : Act
  | openEv : Nat → Act
  | msgEv : Nat → String → Act
  | errEv : Nat → Act
  | closeEv : Nat → Act
  | fire : Nat → Act
deriving Repr, DecidableEq

def stepAct (w : World) : Act → World
  | Act.connect => connectWebSocket w
  | Act.disconnect => disconnectWebSocket w
  | Act.openEv i => onOpen w i
  | Act.msgEv i t => onMessage w i t
  | Act.errEv i => onSockError w i
  | Act.closeEv i => onClose w i
  | Act.fire idx => fireTimer w idx

def runActs (w : World) (acts : List Act) : World :=
  acts.foldl stepAct w

def worldInit : World :=
  { now := 0,
    store := { latestStatus := "", isConnected := false, socketRef := none, reconnectAttempts := 0 },
    socks := [], timers := [], nextId := 0 }

/- Helper facts about the status-store handlers. -/

theorem disconnect_of_live (w : World) (i : Nat) (h : w.store.socketRef = some i) :
    (disconnectWebSocket w).store.isConnected = false ∧
    (disconnectWebSocket w).store.latestStatus = "" ∧
    (disconnectWebSocket w).store.reconnectAttempts = wsMaxReconnectAttempts ∧
    (disconnectWebSocket w).store.socketRef = none ∧
    (disconnectWebSocket w).timers = w.timers := by
  unfold disconnectWebSocket
  rw [h]
  exact ⟨rfl, rfl, rfl, rfl, rfl⟩

theorem disconnect_of_none (w : World) (h : w.store.socketRef = none) :
    disconnectWebSocket w = w := by
  unfold disconnectWebSocket
  rw [h]

theorem onClose_timers_of_max (w : World) (i : Nat)
    (h : wsMaxReconnectAttempts ≤ w.store.reconnectAttempts) :
    (onClose w i).timers = w.timers := by
  unfold onClose
  cases hf : findSock w i with
  | none => rfl
  | some s =>
    by_cases hs : s.state = SockState.closed
    · simp [hs]
    · have hlt : ¬ (w.store.reconnectAttempts < wsMaxReconnectAttempts) := by omega
      simp [hs, setSockState, hlt]

theorem connect_keeps_attempts (w : World) :
    (connectWebSocket w).store.reconnectAttempts = w.store.reconnectAttempts := by
  unfold connectWebSocket
  by_cases hg : sockReadyLt2 w = true
  · rw [if_pos hg]
  · rw [if_neg hg]

theorem onOpen_resets_attempts (w : World) (i : Nat) (s : Sock)
    (hf : findSock w i = some s) (hs : s.state = SockState.connecting) :
    (onOpen w i).store.reconnectAttempts = 0 := by
  unfold onOpen
  rw [hf]
  simp [hs]

theorem fireClear_keeps (w : World) (idx : Nat) (t : Timer)
    (ht : w.timers.get? idx = some t) (hk : t.kind = TimerKind.clearNotice)
    (hne : w.store.latestStatus ≠ sConnected) :
    (fireTimer w idx).store.latestStatus = w.store.latestStatus := by
  unfold fireTimer
  rw [ht]
  obtain ⟨due, kind⟩ := t
  simp only at hk
  subst hk
  simp [hne]

theorem fireClear_clears (w : World) (idx : Nat) (t : Timer)
    (ht : w.timers.get? idx = some t) (hk : t.kind = TimerKind.clearNotice)
    (heq : w.store.latestStatus = sConnected) :
    (fireTimer w idx).store.latestStatus = "" := by
  unfold fireTimer
  rw [ht]
  obtain ⟨due, kind⟩ := t
  simp only at hk
  subst hk
  simp [heq]

/- Concrete scenario inputs from the spec. -/

def scenA1 : List Char := ("[\x7b\"a\":1\x7d]\n[\x7b\"a\"").toList

def scenA2 : List Char := (":2\x7d]\n").toList

def scenB : List Char := ("not-json\n[\x7b\"a\":1\x7d]\n").toList

def scenTwo : List Char := ("[\x7b\"a\":1\x7d]\n[\x7b\"a\":2\x7d]\n").toList

def scenTail : List Char := ("[\x7b\"a\":1\x7d]").toList

def scenOne : List Char := ("[\x7b\"a\":1\x7d]\n").toList

def badLine : List Char := ("not-json\n").toList

def statusSample : String := "Coordinator: generating records"

/-- C1: frame decoding is split-invariant — for every way of cutting a stream
into chunks, feeding the chunks sequentially through the decode pass of
`generatePreview` (carrying the tail between calls) and concatenating the
emitted records gives the same outcome as decoding the whole stream in one
call; and the concrete Scenario A split yields exactly the records with key
`a` mapped to `1` then `2`, with an empty tail afterwards. -/
theorem C1_frame_split_invariance :
    (∀ cs : List (List Char), frameSeq [] cs = framePass [] cs.flatten) ∧
    frameSeq [] [scenA1, scenA2] = Except.ok ([rowA1, rowA2], []) := by
  constructor
  · intro cs
    exact frameSeq_join cs [] (by simp)
  · rfl

/-- C2: the claim (skip a malformed non-final segment and keep the session
alive) is the documented intent, implemented in the `handleModelConfirm`
decoder, which yields exactly the `a ↦ 1` record on Scenario B; but
`generatePreview`'s decode loop calls `JSON.parse` without a per-line
try/catch, so the same input throws out of the loop and fails the whole
session — a code bug relative to the claim. -/
theorem C2_malformed_segment_bug :
    hmcChunk [] scenB = [rowA1] ∧ sessionRun [scenB] = Except.error () :=
  ⟨rfl, rfl⟩

/-- C3 counterexample: call `disconnect()` mid-retry (socket already nulled by
`onclose`, reconnect timer pending).  The guard `if (currentSocket)` makes the
call a no-op: the status text stays at the reconnecting notice (not `''`) and
the pending timer still fires an automatic reconnect afterwards — a second
socket gets created after the manual disconnect. -/
theorem C3_disconnect_midretry_cex :
    (runActs worldInit [Act.connect, Act.closeEv 0, Act.disconnect]).store.latestStatus =
      sReconnecting ∧
    sReconnecting ≠ "" ∧
    (runActs worldInit [Act.connect, Act.closeEv 0, Act.disconnect]).timers =
      [{ due := 5000, kind := TimerKind.reconnect }] ∧
    (runActs worldInit [Act.connect, Act.closeEv 0, Act.disconnect, Act.fire 0]).socks.length = 2 := by
  refine ⟨rfl, by decide, rfl, rfl⟩

/-- C3 (amended): when a live Connection is stored, `disconnect()` immediately
sets `isConnected=false`, clears the status text, raises the attempt counter
to the maximum and nulls the socket, scheduling nothing new; a subsequent
close event then schedules no reconnect (counter at maximum).  When no socket
is stored — in particular mid-retry — `disconnect()` is a complete no-op, so
the reconnecting status text survives and a pending scheduled reconnect still
runs. -/
theorem C3_disconnect_amended :
    (∀ w i, w.store.socketRef = some i →
      ((disconnectWebSocket w).store.isConnected = false ∧
       (disconnectWebSocket w).store.latestStatus = "" ∧
       (disconnectWebSocket w).store.reconnectAttempts = wsMaxReconnectAttempts ∧
       (disconnectWebSocket w).store.socketRef = none ∧
       (disconnectWebSocket w).timers = w.timers)) ∧
    (∀ w, w.store.socketRef = none → disconnectWebSocket w = w) ∧
    (∀ w i, wsMaxReconnectAttempts ≤ w.store.reconnectAttempts →
      (onClose w i).timers = w.timers) :=
  ⟨disconnect_of_live, disconnect_of_none, onClose_timers_of_max⟩

def wLive : World := runActs worldInit [Act.connect, Act.openEv 0]

def wNoSock : World := runActs worldInit [Act.connect, Act.closeEv 0]

/-- C3 witness: the amended theorem applied at a concrete opened connection and
at a concrete mid-retry world. -/
theorem C3_disconnect_witness :
    wLive.store.socketRef = some 0 ∧
    (disconnectWebSocket wLive).store.latestStatus = "" ∧
    wNoSock.store.socketRef = none ∧
    disconnectWebSocket wNoSock = wNoSock ∧
    wsMaxReconnectAttempts ≤ (disconnectWebSocket wLive).store.reconnectAttempts ∧
    (onClose (disconnectWebSocket wLive) 0).timers = (disconnectWebSocket wLive).timers := by
  refine ⟨rfl, (C3_disconnect_amended.1 wLive 0 rfl).2.1, rfl,
    C3_disconnect_amended.2.1 wNoSock rfl, by decide,
    C3_disconnect_amended.2.2 (disconnectWebSocket wLive) 0 (by decide)⟩

def traceD : List Act :=
  [Act.connect, Act.closeEv 0, Act.fire 0, Act.closeEv 1, Act.fire 0, Act.closeEv 2,
   Act.fire 0, Act.closeEv 3, Act.fire 0, Act.closeEv 4, Act.fire 0, Act.closeEv 5]

/-- C4 counterexample: after the attempt counter has reached the maximum,
calling `connectWebSocket()` again does not reset it to zero — the counter is
still 5 right after the manual reconnect call (only a successful open resets
it). -/
theorem C4_connect_reset_cex :
    (runActs worldInit (traceD ++ [Act.connect])).store.reconnectAttempts = 5 ∧
    (5 : Nat) ≠ 0 :=
  ⟨rfl, by decide⟩

/-- C4 (amended): once the counter has reached the maximum, a close event
schedules no further reconnect; `connect()` itself never changes the counter —
it is reset to zero only by the open handler of a connecting socket; and in the
concrete Scenario D run (five close events five seconds apart) exactly five
automatic reconnect attempts are made (six sockets total, one manual), after
which no timer is pending, the counter sits at the maximum and the status text
holds the terminal give-up notice. -/
theorem C4_reconnect_policy_amended :
    (∀ w i, wsMaxReconnectAttempts ≤ w.store.reconnectAttempts →
      (onClose w i).timers = w.timers) ∧
    (∀ w, (connectWebSocket w).store.reconnectAttempts = w.store.reconnectAttempts) ∧
    (∀ w i s, findSock w i = some s → s.state = SockState.connecting →
      (onOpen w i).store.reconnectAttempts = 0) ∧
    ((runActs worldInit traceD).socks.length = 6 ∧
     (runActs worldInit traceD).timers = [] ∧
     (runActs worldInit traceD).store.reconnectAttempts = wsMaxReconnectAttempts ∧
     (runActs worldInit traceD).store.latestStatus = sGiveUp) :=
  ⟨onClose_timers_of_max, connect_keeps_attempts, onOpen_resets_attempts,
   rfl, rfl, rfl, rfl⟩

/-- C4 witness: the amended theorem applied at the post-Scenario-D world and at
freshly created sockets. -/
theorem C4_reconnect_policy_witness :
    wsMaxReconnectAttempts ≤ (runActs worldInit traceD).store.reconnectAttempts ∧
    (onClose (runActs worldInit traceD) 6).timers = (runActs worldInit traceD).timers ∧
    (connectWebSocket worldInit).store.reconnectAttempts = worldInit.store.reconnectAttempts ∧
    findSock (connectWebSocket worldInit) 0 = some { sid := 0, state := SockState.connecting } ∧
    (onOpen (connectWebSocket worldInit) 0).store.reconnectAttempts = 0 := by
  refine ⟨by decide, C4_reconnect_policy_amended.1 _ 6 (by decide),
    C4_reconnect_policy_amended.2.1 worldInit, rfl,
    C4_reconnect_policy_amended.2.2.1 _ 0 _ rfl rfl⟩

/-- C5: the no-duplicate-connections guard reads `get().socket`, but the store's
`socket` field is only assigned inside the `onopen` handler (the direct
assignment is commented out as "redundant"), so two `connect()` calls before
the first open event create two concurrent CONNECTING sockets — contradicting
the code's own `Prevent multiple connections` comment and the claim. -/
theorem C5_duplicate_connection_bug :
    (runActs worldInit [Act.connect, Act.connect]).socks =
      [{ sid := 0, state := SockState.connecting }, { sid := 1, state := SockState.connecting }] ∧
    (runActs worldInit [Act.connect, Act.connect]).store.socketRef = none :=
  ⟨rfl, rfl⟩

/-- C6 counterexample: a stream whose single chunk is a complete, parseable
array segment with no trailing newline.  At end of stream the session has
decoded nothing and still holds the whole text in the buffer — no final parse
of the retained tail is ever attempted (and no decode warning exists in the
code), even though the tail parses successfully. -/
theorem C6_no_flush_cex :
    (sessionRun [scenTail]).map (fun s => (s.allRows, s.buffer)) = Except.ok ([], scenTail) ∧
    jsonParse scenTail = some (Json.arr [rowA1]) :=
  ⟨rfl, rfl⟩

/-- C6 (amended): at end of stream `generatePreview` performs no flush at all:
for every chunk sequence (with no segment parsing to a bare `null`, which
would crash the counter update mid-stream and never reach end of stream) the
session's final records and retained buffer are exactly those of the frame
decoder over the complete (newline-terminated) segments — the tail is silently
discarded unparsed, no warning is attached, and every already-decoded record
is retained. -/
theorem C6_no_flush_amended :
    ∀ cs : List (List Char),
      (∀ seg ∈ (segsOf cs.flatten).dropLast, jsonParse seg ≠ some Json.null) →
      (sessionRun cs).map (fun s => (s.allRows, s.buffer)) = frameSeq [] cs := by
  intro cs hnn
  have hrun : sessionRun cs = pullChunk sessionInit cs.flatten := by
    unfold sessionRun
    exact sessionSteps_flatten cs sessionInit (by simp [sessionInit])
  rw [hrun, frameSeq_join cs [] (by simp)]
  unfold pullChunk framePass
  have hb : sessionInit.buffer ++ cs.flatten = [] ++ cs.flatten := rfl
  rw [hb, List.nil_append]
  rw [runLines_rows _ _ hnn]
  cases decodeSegs (segsOf cs.flatten).dropLast with
  | error e => rfl
  | ok r => simp [Except.map, sessionInit]

/-- C6 witness: the amended theorem applied to the concrete unterminated
stream (whose only segment is the tail, so the hypothesis is vacuous). -/
theorem C6_no_flush_witness :
    (∀ seg ∈ (segsOf (List.flatten [scenTail])).dropLast, jsonParse seg ≠ some Json.null) ∧
    (sessionRun [scenTail]).map (fun s => (s.allRows, s.buffer)) = frameSeq [] [scenTail] := by
  have hvac : ∀ seg ∈ (segsOf (List.flatten [scenTail])).dropLast, jsonParse seg ≠ some Json.null := by
    intro seg hseg
    have hempty : (segsOf (List.flatten [scenTail])).dropLast = [] := rfl
    rw [hempty] at hseg
    exact absurd hseg (List.not_mem_nil seg)
  exact ⟨hvac, C6_no_flush_amended [scenTail] hvac⟩

def dimEx : Dimension := { id := ("d0"), name := ("Region"), members := [("East")] }

def ctx0 : Ctx :=
  { previewLoading := false, previewData := none, progressChunks := 0,
    progressRows := RowCount.num 0, errors := [] }

/-- C7 counterexample: first pull delivers the batch with the `a ↦ 1` record,
the second pull fails to parse; the catch block of `generatePreview` then runs
`setPreviewData(null)` and zeroes the progress, so the batch delivered before
the failure is *not* available after the session fails. -/
theorem C7_data_loss_cex :
    (generatePreviewRun [dimEx] (FetchResult.ok [scenOne, badLine]) ctx0).1.previewData = none ∧
    (sessionRun [scenOne]).map (fun s => s.batches) = Except.ok [[rowA1]] :=
  ⟨rfl, rfl⟩

/-- C7 (amended): when a streaming session fails partway through, the failure
is surfaced as a single error notice, but already-delivered data is discarded,
not preserved: `previewData` is reset to null and the progress counters to
zero, and the loading flag is dropped. -/
theorem C7_failure_resets_amended :
    ∀ (dims : List Dimension) (cs : List (List Char)) (ctx : Ctx),
      dims ≠ [] → sessionRun cs = Except.error () →
      (generatePreviewRun dims (FetchResult.ok cs) ctx).1.previewData = none ∧
      (generatePreviewRun dims (FetchResult.ok cs) ctx).1.progressChunks = 0 ∧
      (generatePreviewRun dims (FetchResult.ok cs) ctx).1.progressRows = RowCount.num 0 ∧
      (generatePreviewRun dims (FetchResult.ok cs) ctx).1.previewLoading = false ∧
      (generatePreviewRun dims (FetchResult.ok cs) ctx).1.errors = ctx.errors ++ [parseFailMsg] := by
  intro dims cs ctx hd hrun
  have hlen : ¬ dims.length = 0 := by
    cases dims with
    | nil => exact absurd rfl hd
    | cons d ds => simp
  simp [generatePreviewRun, hlen, hrun]

/-- C7 witness: the amended theorem applied to the concrete failing stream. -/
theorem C7_failure_resets_witness :
    ([dimEx] ≠ ([] : List Dimension)) ∧
    sessionRun [scenOne, badLine] = Except.error () ∧
    (generatePreviewRun [dimEx] (FetchResult.ok [scenOne, badLine]) ctx0).1.previewData = none := by
  refine ⟨by simp, rfl, (C7_failure_resets_amended [dimEx] [scenOne, badLine] ctx0 (by simp) rfl).1⟩

/-- C8 counterexample: a real status message that happens to equal the
transient connected notice verbatim arrives before the 3-second timer; the
self-clear's equality guard cannot distinguish it from the original notice and
erases it — at 3000 ms the text is empty, not the still-present message the
claim requires. -/
theorem C8_notice_collision_cex :
    (runActs worldInit [Act.connect, Act.openEv 0, Act.msgEv 0 sConnected, Act.fire 0]).store.latestStatus = "" ∧
    sConnected ≠ "" :=
  ⟨rfl, by decide⟩

/-- C8 (amended): the self-clear timer clears the status text exactly when the
text still equals the transient connected notice verbatim, and leaves it
unchanged otherwise — so a real message *with different text* survives at
3000 ms, while one textually identical to the notice is cleared; concretely,
with no message the text returns to empty, and a sample job message received
before the timer is still present, unchanged, after it fires. -/
theorem C8_notice_clear_amended :
    (∀ w idx t, w.timers.get? idx = some t → t.kind = TimerKind.clearNotice →
       w.store.latestStatus ≠ sConnected →
       (fireTimer w idx).store.latestStatus = w.store.latestStatus) ∧
    (∀ w idx t, w.timers.get? idx = some t → t.kind = TimerKind.clearNotice →
       w.store.latestStatus = sConnected →
       (fireTimer w idx).store.latestStatus = "") ∧
    (runActs worldInit [Act.connect, Act.openEv 0, Act.fire 0]).store.latestStatus = "" ∧
    (runActs worldInit [Act.connect, Act.openEv 0, Act.msgEv 0 statusSample, Act.fire 0]).store.latestStatus = statusSample :=
  ⟨fireClear_keeps, fireClear_clears, rfl, rfl⟩

/-- C8 witness: the amended theorem applied at the concrete world holding a
sample job message and a pending notice-clear timer. -/
theorem C8_notice_clear_witness :
    (runActs worldInit [Act.connect, Act.openEv 0, Act.msgEv 0 statusSample]).timers.get? 0 =
      some { due := 3000, kind := TimerKind.clearNotice } ∧
    (runActs worldInit [Act.connect, Act.openEv 0, Act.msgEv 0 statusSample]).store.latestStatus ≠ sConnected ∧
    (fireTimer (runActs worldInit [Act.connect, Act.openEv 0, Act.msgEv 0 statusSample]) 0).store.latestStatus =
      (runActs worldInit [Act.connect, Act.openEv 0, Act.msgEv 0 statusSample]).store.latestStatus := by
  refine ⟨rfl, by decide, C8_notice_clear_amended.1 _ 0 _ rfl rfl (by decide)⟩

def strLine : List Char := ("\"ab\"\n").toList

/-- C9 counterexample: one pull whose text holds two complete segments delivers
two batches and bumps the batch counter to 2 after a single pull — batching is
per parsed segment, not one batch per pull as the claim states.  Moreover a
segment holding the JSON string `"ab"` is delivered as one batch of one record
while `rowCount` grows by the string length 2, refuting the claim's unqualified
`+|batch|` record accounting. -/
theorem C9_batch_per_pull_cex :
    (sessionRun [scenTwo]).map (fun s => s.chunks) = Except.ok 2 ∧
    (sessionRun [scenTwo]).map (fun s => s.batches.length) = Except.ok 2 ∧
    (2 : Nat) ≠ 1 ∧
    (sessionRun [strLine]).map (fun s => (s.rows, s.batches.map List.length)) =
      Except.ok (RowCount.num 2, [1]) :=
  ⟨rfl, rfl, by decide, rfl⟩

/-- C9 (amended): during streaming the records of each complete non-blank
segment form exactly one batch per segment (not per pull), delivered in
decoded order — the accumulated rows are the concatenation of the delivered
batches; one progress notification is emitted per batch, after the counters
were incremented, carrying the fresh counter values; the batch counter always
equals the number of batches delivered so far, with no double counting; and on
a stream whose complete segments all parse to arrays (the §6 stream format,
where each batch contributes exactly +|batch| records) the row counter is
numeric and equals the sum of the delivered batch sizes exactly. -/
theorem C9_batching_amended :
    ∀ (cs : List (List Char)) (st : Session), sessionRun cs = Except.ok st →
      (st.chunks = st.batches.length ∧
       st.allRows = st.batches.flatten ∧
       st.progress.length = st.batches.length ∧
       st.progress.getLastD (0, RowCount.num 0) = (st.chunks, st.rows)) ∧
      ((∀ seg ∈ (segsOf cs.flatten).dropLast, segArrOk seg) →
        st.rows = RowCount.num ((st.batches.map List.length).sum)) := by
  intro cs st h
  exact ⟨sessionRun_inv h, fun harr => sessionRun_rowsExact cs harr h⟩

def stOne : Session :=
  { buffer := [], allRows := [rowA1], batches := [[rowA1]], chunks := 1,
    rows := RowCount.num 1, progress := [(1, RowCount.num 1)] }

/-- C9 witness: the amended theorem applied to the concrete one-segment run,
discharging both the run equation and the all-array hypothesis. -/
theorem C9_batching_witness :
    sessionRun [scenOne] = Except.ok stOne ∧
    stOne.chunks = stOne.batches.length ∧
    stOne.rows = RowCount.num ((stOne.batches.map List.length).sum) := by
  have h := C9_batching_amended [scenOne] stOne rfl
  refine ⟨rfl, h.1.1, h.2 ?_⟩
  intro seg hseg
  have hsegs : (segsOf (List.flatten [scenOne])).dropLast = [scenTail] := rfl
  rw [hsegs] at hseg
  have hseg2 : seg = scenTail := List.mem_singleton.mp hseg
  rw [hseg2]
  exact Or.inr ⟨[rowA1], rfl⟩

/-- C10: starting `generatePreview` with zero dimensions only emits the
user-visible error notice and returns: no fetch is issued (the returned flag
is false) and `previewData`, `previewLoading` and both progress fields are
left exactly as they were. -/
theorem C10_no_dims_guard :
    ∀ (resp : FetchResult) (ctx : Ctx),
      (generatePreviewRun [] resp ctx).1.previewData = ctx.previewData ∧
      (generatePreviewRun [] resp ctx).1.previewLoading = ctx.previewLoading ∧
      (generatePreviewRun [] resp ctx).1.progressChunks = ctx.progressChunks ∧
      (generatePreviewRun [] resp ctx).1.progressRows = ctx.progressRows ∧
      (generatePreviewRun [] resp ctx).2 = false ∧
      (generatePreviewRun [] resp ctx).1.errors = ctx.errors ++ [noDimsMsg] := by
  intro resp ctx
  exact ⟨rfl, rfl, rfl, rfl, rfl, rfl⟩
